import Mathlib

/-!
# Verification of the slackai message store and websocket relay

Shallow embedding of the core subsystem of the `slackai` repository:
the Drizzle/Postgres-backed message store (`DatabaseStorage` in the
storage module) and the in-process websocket relay (`registerRoutes`
in `src/server/routes.ts`), together with the zod insert schema for
messages (`insertMessageSchema` in `src/shared/schema.ts`).

Machine integers (Postgres `serial`/`integer`, JS numbers holding ids
and timestamps) are modelled as `Int`; SQL `WHERE` clauses are modelled
with explicit three-valued logic so that comparisons against `NULL`
behave as in Postgres.
-/

namespace SlackAI

/-! ## SQL three-valued logic

Postgres `WHERE` keeps a row only when the condition evaluates to TRUE;
a comparison involving `NULL` evaluates to UNKNOWN. Drizzle's `eq`,
`and`, `or` compile directly to `=`, `AND`, `OR`. -/

inductive SqlB where
  | t | f | u
  deriving Repr, DecidableEq

def sqlAnd : SqlB → SqlB → SqlB
  | .t, b => b
  | .f, _ => .f
  | .u, .f => .f
  | .u, _ => .u

def sqlOr : SqlB → SqlB → SqlB
  | .t, _ => .t
  | .f, b => b
  | .u, .t => .t
  | .u, _ => .u

/-- `eq(column, value)` where the column is nullable and the bound
parameter may itself be SQL `NULL` (drizzle does not special-case a
`null` argument into `IS NULL`; it emits `= NULL`). -/
def sqlEqOpt (col : Option Int) (v : Option Int) : SqlB :=
  match col, v with
  | some x, some y => if x = y then .t else .f
  | _, _ => .u

/-- `eq(column, value)` for a NOT NULL column and a non-null parameter. -/
def sqlEqInt (col : Int) (v : Int) : SqlB :=
  if col = v then .t else .f

/-! ## Table rows (src/shared/schema.ts)

Only the columns read by the operations under verification are carried;
`aiAnalysis` is opaque jsonb and is never inspected by the store, and
the remaining user/channel columns are never used in a join condition
or filter. -/

structure UserRow where
  id : Int
  displayName : String
  deriving Repr, DecidableEq

structure ChannelRow where
  id : Int
  name : String
  deriving Repr, DecidableEq

structure MessageRow where
  id : Int
  content : String
  authorId : Int
  channelId : Option Int
  parentMessageId : Option Int
  recipientId : Option Int
  createdAt : Int
  deriving Repr, DecidableEq

structure Db where
  users : List UserRow
  channels : List ChannelRow
  messages : List MessageRow
  deriving Repr, DecidableEq

/-- A message row inner-joined with its author row, as produced by
`.innerJoin(users, eq(messages.authorId, users.id))`. -/
abbrev MsgWithAuthor := MessageRow × UserRow

/-- `FROM messages INNER JOIN users ON messages.author_id = users.id`. -/
def joinAuthors (db : Db) : List MsgWithAuthor :=
  db.messages.flatMap fun m =>
    (db.users.filter fun u => sqlEqInt m.authorId u.id = .t).map fun u => (m, u)

/-- Ascending `ORDER BY created_at` (drizzle `asc(messages.createdAt)`);
`ORDER BY` is modelled as a stable sort on the join output. -/
def byCreatedAtAsc (a b : MsgWithAuthor) : Prop :=
  a.1.createdAt ≤ b.1.createdAt

instance : DecidableRel byCreatedAtAsc :=
  fun a b => inferInstanceAs (Decidable (a.1.createdAt ≤ b.1.createdAt))

instance : IsTotal MsgWithAuthor byCreatedAtAsc :=
  ⟨fun a b => Int.le_total a.1.createdAt b.1.createdAt⟩

instance : IsTrans MsgWithAuthor byCreatedAtAsc :=
  ⟨fun _ _ _ h h' => Int.le_trans h h'⟩

/-! ## DatabaseStorage message methods -/

/-- `DatabaseStorage.getDirectMessages(userId1, userId2, limit = 50)`:
`WHERE channel_id = NULL AND ((author_id = $u1 AND recipient_id = $u2)
OR (author_id = $u2 AND recipient_id = $u1)) ORDER BY created_at ASC
LIMIT $limit`. The first conjunct is drizzle `eq(messages.channelId, null)`
exactly as the source writes it. -/
def getDirectMessages (db : Db) (userId1 userId2 : Int) (limit : Nat := 50) :
    List MsgWithAuthor :=
  (List.insertionSort byCreatedAtAsc ((joinAuthors db).filter fun r =>
      sqlAnd (sqlEqOpt r.1.channelId none)
        (sqlOr
          (sqlAnd (sqlEqInt r.1.authorId userId1) (sqlEqOpt r.1.recipientId (some userId2)))
          (sqlAnd (sqlEqInt r.1.authorId userId2) (sqlEqOpt r.1.recipientId (some userId1))))
        = .t)).take limit

/-- `DatabaseStorage.getMessageThread(parentId)`:
`WHERE parent_message_id = $parentId ORDER BY created_at ASC` (no limit). -/
def getMessageThread (db : Db) (parentId : Int) : List MsgWithAuthor :=
  List.insertionSort byCreatedAtAsc ((joinAuthors db).filter fun r =>
      sqlEqOpt r.1.parentMessageId (some parentId) = .t)

/-- The flat channel query inside `DatabaseStorage.getChannelMessages`:
`WHERE channel_id = $channelId ORDER BY created_at ASC LIMIT $limit`. -/
def channelFlatMessages (db : Db) (channelId : Int) (limit : Nat) :
    List MsgWithAuthor :=
  ((List.insertionSort byCreatedAtAsc ((joinAuthors db).filter fun r =>
      sqlEqOpt r.1.channelId (some channelId) = .t)).take limit)

/-- The per-message reply query inside `DatabaseStorage.getChannelMessages`:
`WHERE parent_message_id = $msgId ORDER BY created_at ASC`. -/
def repliesOf (db : Db) (msgId : Int) : List MsgWithAuthor :=
  List.insertionSort byCreatedAtAsc ((joinAuthors db).filter fun r =>
      sqlEqOpt r.1.parentMessageId (some msgId) = .t)

/-- `DatabaseStorage.getChannelMessages(channelId, limit = 50)`: fetches the
flat channel list, then attaches `replies` to every element of that list
(the `for (const msg of msgs)` loop runs over all fetched rows, root or
not). -/
def getChannelMessages (db : Db) (channelId : Int) (limit : Nat := 50) :
    List (MsgWithAuthor × List MsgWithAuthor) :=
  (channelFlatMessages db channelId limit).map fun mw => (mw, repliesOf db mw.1.id)

/-- A message joined with its author and left-joined channel, as produced by
`searchMessages`'s `.leftJoin(channels, eq(messages.channelId, channels.id))`. -/
abbrev MsgWithAuthorChannel := MessageRow × UserRow × Option ChannelRow

/-- `LEFT JOIN channels ON messages.channel_id = channels.id` applied to the
author-joined rows. -/
def leftJoinChannels (db : Db) (rows : List MsgWithAuthor) :
    List MsgWithAuthorChannel :=
  rows.map fun r =>
    (r.1, r.2, (db.channels.filter fun c => sqlEqOpt r.1.channelId (some c.id) = .t).head?)

/-- Descending `ORDER BY created_at` (drizzle `desc(messages.createdAt)`)
on the channel-joined rows. -/
def byCreatedAtDescC (a b : MsgWithAuthorChannel) : Prop :=
  b.1.createdAt ≤ a.1.createdAt

instance : DecidableRel byCreatedAtDescC :=
  fun a b => inferInstanceAs (Decidable (b.1.createdAt ≤ a.1.createdAt))

instance : IsTotal MsgWithAuthorChannel byCreatedAtDescC :=
  ⟨fun a b => Int.le_total b.1.createdAt a.1.createdAt⟩

instance : IsTrans MsgWithAuthorChannel byCreatedAtDescC :=
  ⟨fun _ _ _ h h' => Int.le_trans h' h⟩

/-- JS truthiness of a `number | undefined` value (`if (channelId)`). -/
def jsTruthy : Option Int → Bool
  | none => false
  | some v => v != 0

/-- `DatabaseStorage.searchMessages(query, channelId?)`: when `channelId` is
truthy the builder gains `WHERE channel_id = $channelId` (the second slot of
the `and(...)` holds only a source comment); the `query` argument is never
used in any condition. Result: `ORDER BY created_at DESC LIMIT 20`. -/
def searchMessages (db : Db) (query : String) (channelId : Option Int) :
    List MsgWithAuthorChannel :=
  let base := leftJoinChannels db (joinAuthors db)
  let filtered :=
    if jsTruthy channelId then
      base.filter fun r => sqlAnd (sqlEqOpt r.1.channelId channelId) .t = .t
    else base
  (List.insertionSort byCreatedAtDescC filtered).take 20

/-! ## insertMessageSchema and POST /api/messages

`insertMessageSchema = createInsertSchema(messages).omit({id, createdAt,
updatedAt})` (src/shared/schema.ts). drizzle-zod derives: `content`
required string (NOT NULL, no default), `authorId` required number,
`channelId`/`parentMessageId`/`recipientId` optional nullable numbers,
`aiAnalysis` optional jsonb (never inspected here). There is no refine
step: any string (including "") passes for `content`, and every
combination of `channelId`/`recipientId` passes. -/

/-- A JSON request body field of type `number | null | undefined`:
`none` = absent, `some none` = explicit `null`, `some (some n)` = number. -/
abbrev JsonNumField := Option (Option Int)

/-- The request body of `POST /api/messages` (the fields
`insertMessageSchema` looks at). `content = none` models an absent or
non-string `content` field. -/
structure MessageBody where
  content : Option String
  channelId : JsonNumField
  parentMessageId : JsonNumField
  recipientId : JsonNumField
  deriving Repr, DecidableEq

/-- A successfully parsed insert payload (`InsertMessage`), with the
`authorId` the route injects from the session. `undefined` and `null`
optional fields both persist as SQL `NULL`. -/
structure InsertMessage where
  content : String
  authorId : Int
  channelId : Option Int
  parentMessageId : Option Int
  recipientId : Option Int
  deriving Repr, DecidableEq

/-- `insertMessageSchema.parse({...req.body, authorId: req.user.id})`:
fails (throws `ZodError`) exactly when the required `content` string is
missing; otherwise accepts, whatever the channel/recipient combination. -/
def insertMessageSchemaParse (body : MessageBody) (authorId : Int) :
    Option InsertMessage :=
  match body.content with
  | none => none
  | some c =>
    some { content := c, authorId := authorId,
           channelId := body.channelId.join,
           parentMessageId := body.parentMessageId.join,
           recipientId := body.recipientId.join }

/-- Next `serial` primary key for the messages table. -/
def nextMessageId (db : Db) : Int :=
  (db.messages.map MessageRow.id).foldl max 0 + 1

/-- Postgres foreign-key check for a nullable reference column: SQL `NULL`
always satisfies the constraint, a value must exist among the referenced
primary keys. -/
def fkOk (ref : Option Int) (ids : List Int) : Bool :=
  match ref with
  | none => true
  | some v => ids.contains v

/-- The foreign-key constraints the schema declares on a messages-row
insert: `author_id` NOT NULL REFERENCES users(id), `channel_id`
REFERENCES channels(id), `recipient_id` REFERENCES users(id),
`parent_message_id` REFERENCES messages(id). -/
def fkRefsOk (db : Db) (data : InsertMessage) : Bool :=
  (db.users.map UserRow.id).contains data.authorId
    && fkOk data.channelId (db.channels.map ChannelRow.id)
    && fkOk data.recipientId (db.users.map UserRow.id)
    && fkOk data.parentMessageId (db.messages.map MessageRow.id)

/-- `DatabaseStorage.createMessage(message)`: the insert enforces the
schema's foreign keys — a dangling reference makes Postgres throw, which
propagates out of the method (`none`). On success the row is inserted
(id from the serial sequence, `createdAt`/`updatedAt` defaulted to now)
and re-selected joined with its author. -/
def createMessage (db : Db) (data : InsertMessage) (now : Int) :
    Option (Db × Option MsgWithAuthor) :=
  if fkRefsOk db data then
    let row : MessageRow :=
      { id := nextMessageId db, content := data.content,
        authorId := data.authorId, channelId := data.channelId,
        parentMessageId := data.parentMessageId, recipientId := data.recipientId,
        createdAt := now }
    let db' : Db := { db with messages := db.messages ++ [row] }
    some (db', ((joinAuthors db').filter fun r => sqlEqInt r.1.id row.id = .t).head?)
  else none

/-- Outcome of `POST /api/messages`: HTTP 201 with the stored message, or
HTTP 400 `"Invalid message data"` when the zod parse or the insert throws. -/
inductive PostMessageResult where
  | created (m : Option MsgWithAuthor)
  | badRequest
  deriving Repr, DecidableEq

/-- The `POST /api/messages` handler body (after the auth guard): parse the
body with the author injected, persist on success; the surrounding
`try/catch` maps both a zod parse failure and a thrown insert error
(foreign-key violation) to HTTP 400. No other validation is performed. -/
def postApiMessages (db : Db) (body : MessageBody) (userId : Int) (now : Int) :
    Db × PostMessageResult :=
  match insertMessageSchemaParse body userId with
  | none => (db, .badRequest)
  | some data =>
    match createMessage db data now with
    | some (db', m) => (db', .created m)
    | none => (db, .badRequest)

/-! ## Websocket relay (registerRoutes in src/server/routes.ts)

`const clients = new Map<WebSocket, { userId: number; channels: Set<number> }>()`
with per-socket `message`/`close` handlers. Sockets are identified by an
id; the `Map` is an insertion-ordered association list (JS `Map.set`
updates in place, `Map.delete` removes); `Set` is a duplicate-free list.
The transport is modelled sequentially: a frame is only delivered for a
socket that is currently open, and `readyState === OPEN` holds exactly
for sockets in `conns`. -/

abbrev ConnId := Nat

structure ClientInfo where
  userId : Int
  channels : List Int
  deriving Repr, DecidableEq

/-- JS `Map.get`. -/
def mapGet {α : Type} (l : List (ConnId × α)) (k : ConnId) : Option α :=
  match l with
  | [] => none
  | (k', v') :: rest => if k' = k then some v' else mapGet rest k

/-- JS `Map.set`: update in place if the key exists, else append. -/
def mapSet {α : Type} (l : List (ConnId × α)) (k : ConnId) (v : α) :
    List (ConnId × α) :=
  match l with
  | [] => [(k, v)]
  | (k', v') :: rest =>
    if k' = k then (k, v) :: rest else (k', v') :: mapSet rest k v

/-- JS `Map.delete`. -/
def mapDelete {α : Type} (l : List (ConnId × α)) (k : ConnId) :
    List (ConnId × α) :=
  l.filter fun p => p.1 ≠ k

/-- JS `Set.add`. -/
def setAdd (l : List Int) (x : Int) : List Int :=
  if x ∈ l then l else l ++ [x]

/-- JS `Set.delete`. -/
def setRemove (l : List Int) (x : Int) : List Int :=
  l.filter fun y => y ≠ x

/-- The `data` field of a `new_message` frame (the persisted message the
client echoes); the relay reads only `data.authorId` and otherwise passes
the payload through. -/
structure MessageData where
  authorId : Int
  deriving Repr, DecidableEq

structure NewMessagePayload where
  channelId : Option Int
  recipientId : Option Int
  data : MessageData
  deriving Repr, DecidableEq

/-- Inbound websocket frames (the `message.type` switch). -/
inductive WsMessage where
  | auth (userId : Int)
  | joinChannel (channelId : Int)
  | leaveChannel (channelId : Int)
  | newMessage (p : NewMessagePayload)
  | typing (channelId : Int) (userId : Int) (isTyping : Bool)
  deriving Repr, DecidableEq

/-- Outbound frames written with `clientWs.send(JSON.stringify(...))`. -/
inductive OutFrame where
  | newMessage (data : MessageData)
  | typing (userId : Int) (channelId : Int) (isTyping : Bool)
  deriving Repr, DecidableEq

structure RelayState where
  clients : List (ConnId × ClientInfo)
  conns : List ConnId
  deriving Repr, DecidableEq

/-- Membership in `conns` (socket open, `readyState === WebSocket.OPEN`). -/
def connOpen (st : RelayState) (c : ConnId) : Bool :=
  st.conns.contains c

/-- The `ws.on('message', ...)` switch, for a frame arriving on socket
`sender`. Returns the new state and the outbound frames in iteration
order of `clients`. -/
def handleWsMessage (st : RelayState) (sender : ConnId) (msg : WsMessage) :
    RelayState × List (ConnId × OutFrame) :=
  match msg with
  | .auth userId =>
    ({ st with clients := mapSet st.clients sender ⟨userId, []⟩ }, [])
  | .joinChannel channelId =>
    match mapGet st.clients sender with
    | some clientData =>
      let updated := { clientData with channels := setAdd clientData.channels channelId }
      ({ st with clients := mapSet st.clients sender updated }, [])
    | none => (st, [])
  | .leaveChannel channelId =>
    match mapGet st.clients sender with
    | some client =>
      let updated := { client with channels := setRemove client.channels channelId }
      ({ st with clients := mapSet st.clients sender updated }, [])
    | none => (st, [])
  | .newMessage p =>
    if jsTruthy p.channelId then
      (st, (st.clients.filter fun c =>
          c.1 != sender && c.2.channels.contains (p.channelId.getD 0) &&
            connOpen st c.1).map
        fun c => (c.1, OutFrame.newMessage p.data))
    else if jsTruthy p.recipientId then
      (st, (st.clients.filter fun c =>
          (c.2.userId == p.recipientId.getD 0 || c.2.userId == p.data.authorId) &&
            connOpen st c.1 && c.1 != sender).map
        fun c => (c.1, OutFrame.newMessage p.data))
    else (st, [])
  | .typing channelId userId isTyping =>
    (st, (st.clients.filter fun c =>
        c.1 != sender && c.2.channels.contains channelId && connOpen st c.1).map
      fun c => (c.1, OutFrame.typing userId channelId isTyping))

/-- Transport-level events: `wss.on('connection')`, an inbound frame on a
socket, and `ws.on('close')`. -/
inductive RelayEvent where
  | connect (c : ConnId)
  | message (c : ConnId) (msg : WsMessage)
  | close (c : ConnId)
  deriving Repr, DecidableEq

/-- One transport event. A frame can only arrive on a socket that is still
open (the `ws` event emitter delivers no `message` after `close`). -/
def relayStep (st : RelayState) (e : RelayEvent) :
    RelayState × List (ConnId × OutFrame) :=
  match e with
  | .connect c =>
    ({ st with conns := if st.conns.contains c then st.conns else st.conns ++ [c] }, [])
  | .message c msg =>
    if connOpen st c then handleWsMessage st c msg else (st, [])
  | .close c =>
    ({ clients := mapDelete st.clients c,
       conns := st.conns.filter fun c' => c' ≠ c }, [])

def initRelayState : RelayState := ⟨[], []⟩

/-- Run a sequence of transport events from a state. -/
def relayRun (st : RelayState) (es : List RelayEvent) : RelayState :=
  es.foldl (fun s e => (relayStep s e).1) st

/-- Relay states the server can actually be in. -/
def ReachableRelay (st : RelayState) : Prop :=
  ∃ es : List RelayEvent, relayRun initRelayState es = st

/-- The set of registered connections subscribed to a channel
(`connectionsFor(channelId)` in the specification's vocabulary). -/
def connectionsForChannel (st : RelayState) (ch : Int) : List ConnId :=
  (st.clients.filter fun c => c.2.channels.contains ch).map Prod.fst

/-- The set of registered connections claiming a user identity
(`connectionsFor(userId)` in the specification's vocabulary). -/
def connectionsForUser (st : RelayState) (uid : Int) : List ConnId :=
  (st.clients.filter fun c => c.2.userId == uid).map Prod.fst

/-! ## Concrete fixtures for witnesses and counterexamples -/

def alice : UserRow := ⟨1, "Alice"⟩
def bob : UserRow := ⟨2, "Bob"⟩

/-- A database holding exactly one direct message, from user 1 to user 2
(`channel_id` NULL, `recipient_id` 2). -/
def dmDb : Db := ⟨[alice, bob], [], [⟨1, "hi bob", 1, none, none, some 2, 100⟩]⟩

/-- Users 1 and 2 and channel 1, no messages yet: every reference used by
the C1 create requests exists, so no foreign key can fail. -/
def postDb : Db := ⟨[alice, bob], [⟨1, "general"⟩], []⟩

/-- A database with a single channel message whose text is "hello world". -/
def searchDb : Db :=
  ⟨[alice], [⟨1, "general"⟩], [⟨1, "hello world", 1, some 1, none, none, 100⟩]⟩

/-- Channel 1 with a root message (id 1), a reply to it (id 2, carrying the
channel id as the client does when posting thread replies), and a reply to
that reply (id 3). -/
def threadDb : Db := ⟨[alice], [⟨1, "general"⟩],
  [⟨1, "root", 1, some 1, none, none, 100⟩,
   ⟨2, "reply", 1, some 1, some 1, none, 200⟩,
   ⟨3, "reply to reply", 1, some 1, some 2, none, 300⟩]⟩

/-- Sockets 1 and 2 subscribed to channel 7, socket 3 to channel 8
(users 1, 2, 3 respectively). -/
def exChannelEvents : List RelayEvent :=
  [.connect 1, .connect 2, .connect 3,
   .message 1 (.auth 1), .message 2 (.auth 2), .message 3 (.auth 3),
   .message 1 (.joinChannel 7), .message 2 (.joinChannel 7),
   .message 3 (.joinChannel 8)]

def exChannelState : RelayState := relayRun initRelayState exChannelEvents

/-- User 1 on sockets 1 and 4, user 2 on socket 2 (multi-device DM scenario). -/
def exDmEvents : List RelayEvent :=
  [.connect 1, .connect 2, .connect 4,
   .message 1 (.auth 1), .message 2 (.auth 2), .message 4 (.auth 1)]

def exDmState : RelayState := relayRun initRelayState exDmEvents

/-- Socket 1 authenticates as user 1, joins channel 7, then re-authenticates
as user 2. -/
def exReauthEvents : List RelayEvent :=
  [.connect 1, .message 1 (.auth 1), .message 1 (.joinChannel 7),
   .message 1 (.auth 2)]

/-! ## Basic lemmas about the SQL three-valued connectives -/

theorem sqlAnd_eq_t {a b : SqlB} : sqlAnd a b = .t ↔ a = .t ∧ b = .t := by
  cases a <;> cases b <;> simp [sqlAnd]

theorem sqlOr_eq_t {a b : SqlB} : sqlOr a b = .t ↔ a = .t ∨ b = .t := by
  cases a <;> cases b <;> simp [sqlOr]

theorem sqlEqOpt_none_right (col : Option Int) : sqlEqOpt col none = .u := by
  cases col <;> rfl

theorem sqlEqOpt_some_eq_t {col : Option Int} {v : Int} :
    sqlEqOpt col (some v) = .t ↔ col = some v := by
  cases col with
  | none => simp [sqlEqOpt]
  | some x => by_cases h : x = v <;> simp [sqlEqOpt, h]

theorem sqlEqInt_eq_t {a b : Int} : sqlEqInt a b = .t ↔ a = b := by
  by_cases h : a = b <;> simp [sqlEqInt, h]

/-! ## Lemmas about the author join -/

theorem mem_joinAuthors_fst {db : Db} {r : MsgWithAuthor} (h : r ∈ joinAuthors db) :
    r.1 ∈ db.messages := by
  unfold joinAuthors at h
  rw [List.mem_flatMap] at h
  obtain ⟨m, hm, hr⟩ := h
  rw [List.mem_map] at hr
  obtain ⟨u, _, rfl⟩ := hr
  exact hm

theorem filter_users_singleton (us : List UserRow) (a : Int)
    (hnd : (us.map UserRow.id).Nodup) (hex : ∃ u ∈ us, u.id = a) :
    ∃ u, (us.filter fun u => sqlEqInt a u.id = .t) = [u] ∧ u.id = a := by
  induction us with
  | nil => obtain ⟨u, hu, _⟩ := hex; exact absurd hu (List.not_mem_nil u)
  | cons v vs ih =>
    rw [List.map_cons, List.nodup_cons] at hnd
    by_cases hva : v.id = a
    · refine ⟨v, ?_, hva⟩
      have hrest : (vs.filter fun u => sqlEqInt a u.id = .t) = [] := by
        rw [List.filter_eq_nil_iff]
        intro u hu
        simp only [decide_eq_true_eq, sqlEqInt_eq_t]
        intro hau
        exact hnd.1 (by rw [hva, hau]; exact List.mem_map_of_mem UserRow.id hu)
      have hv : (fun u => decide (sqlEqInt a u.id = SqlB.t)) v = true := by
        simp [sqlEqInt_eq_t, hva.symm]
      rw [show List.filter (fun u => decide (sqlEqInt a u.id = SqlB.t)) (v :: vs)
            = v :: List.filter (fun u => decide (sqlEqInt a u.id = SqlB.t)) vs
          from List.filter_cons_of_pos hv, hrest]
    · have hex' : ∃ u ∈ vs, u.id = a := by
        obtain ⟨u, hu, hua⟩ := hex
        rcases List.mem_cons.mp hu with rfl | hu'
        · exact absurd hua hva
        · exact ⟨u, hu', hua⟩
      obtain ⟨u, hu, hua⟩ := ih hnd.2 hex'
      refine ⟨u, ?_, hua⟩
      have hv : ¬((fun u => decide (sqlEqInt a u.id = SqlB.t)) v = true) := by
        simp only [decide_eq_true_eq, sqlEqInt_eq_t]
        exact fun h => hva h.symm
      rw [show List.filter (fun u => decide (sqlEqInt a u.id = SqlB.t)) (v :: vs)
            = List.filter (fun u => decide (sqlEqInt a u.id = SqlB.t)) vs
          from List.filter_cons_of_neg hv, hu]

theorem flatMap_author_map_fst (us : List UserRow) (ms : List MessageRow)
    (hPK : (us.map UserRow.id).Nodup)
    (hRI : ∀ m ∈ ms, ∃ u ∈ us, u.id = m.authorId) :
    (ms.flatMap fun m =>
      (us.filter fun u => sqlEqInt m.authorId u.id = .t).map fun u => (m, u)).map
        Prod.fst = ms := by
  induction ms with
  | nil => rfl
  | cons m ms ih =>
    rw [List.flatMap_cons, List.map_append]
    obtain ⟨u, hu, _⟩ := filter_users_singleton us m.authorId hPK
      (hRI m (List.mem_cons_self m ms))
    rw [hu]
    have ih' := ih fun m' hm' => hRI m' (List.mem_cons_of_mem m hm')
    simp [ih']

theorem joinAuthors_map_fst (db : Db)
    (hPK : (db.users.map UserRow.id).Nodup)
    (hRI : ∀ m ∈ db.messages, ∃ u ∈ db.users, u.id = m.authorId) :
    (joinAuthors db).map Prod.fst = db.messages :=
  flatMap_author_map_fst db.users db.messages hPK hRI

/-- Filtering the joined rows on a message-only predicate and projecting to
the message is the same as filtering the messages table. -/
theorem map_fst_filter_joinAuthors (db : Db) (p : MessageRow → Bool)
    (hPK : (db.users.map UserRow.id).Nodup)
    (hRI : ∀ m ∈ db.messages, ∃ u ∈ db.users, u.id = m.authorId) :
    ((joinAuthors db).filter fun r => p r.1).map Prod.fst =
      db.messages.filter p := by
  rw [← joinAuthors_map_fst db hPK hRI, List.filter_map]
  rfl

/-- Shared shape of `getMessageThread` and the reply sub-query of
`getChannelMessages`: the rows selected by `parent_message_id = $x`,
sorted ascending, are exactly the messages whose parent is `x`. -/
theorem repliesOf_spec (db : Db) (x : Int)
    (hPK : (db.users.map UserRow.id).Nodup)
    (hRI : ∀ m ∈ db.messages, ∃ u ∈ db.users, u.id = m.authorId) :
    ((repliesOf db x).map Prod.fst).Perm
        (db.messages.filter fun m => m.parentMessageId = some x) ∧
    (repliesOf db x).Pairwise byCreatedAtAsc := by
  unfold repliesOf
  constructor
  · have hperm := (List.perm_insertionSort byCreatedAtAsc
      ((joinAuthors db).filter fun r =>
        sqlEqOpt r.1.parentMessageId (some x) = .t)).map Prod.fst
    refine hperm.trans ?_
    rw [map_fst_filter_joinAuthors db (fun m => sqlEqOpt m.parentMessageId (some x) = .t)
      hPK hRI]
    rw [List.filter_congr fun m _ => decide_eq_decide.mpr sqlEqOpt_some_eq_t]
  · exact List.sorted_insertionSort byCreatedAtAsc _

/-- Rows of `repliesOf` lie in the author join and satisfy the parent
condition. -/
theorem mem_repliesOf {db : Db} {x : Int} {r : MsgWithAuthor}
    (h : r ∈ repliesOf db x) :
    r ∈ joinAuthors db ∧ r.1.parentMessageId = some x := by
  unfold repliesOf at h
  have h' := (List.perm_insertionSort byCreatedAtAsc _).mem_iff.mp h
  rw [List.mem_filter] at h'
  exact ⟨h'.1, sqlEqOpt_some_eq_t.mp (by simpa using h'.2)⟩

/-! ## C4 — getDirectHistory

`getDirectMessages` filters on `eq(messages.channelId, null)`, which
compiles to `channel_id = NULL`; under SQL three-valued logic this is
UNKNOWN for every row, so the `WHERE` clause never holds and the result
is empty for all inputs. -/

/-- C4: `getDirectHistory(A, B)` is claimed to return exactly the stored
messages whose (authorId, recipientId) is (A,B) or (B,A). In fact it
returns the empty list for every database and every pair of users: the
`channel_id = NULL` conjunct of its `WHERE` clause can never be TRUE. -/
theorem getDirectMessages_always_empty :
    (∀ (db : Db) (userId1 userId2 : Int) (limit : Nat),
      getDirectMessages db userId1 userId2 limit = []) ∧
    dmDb.messages = [⟨1, "hi bob", 1, none, none, some 2, 100⟩] ∧
    getDirectMessages dmDb 1 2 50 = [] := by
  have hall : ∀ (db : Db) (userId1 userId2 : Int) (limit : Nat),
      getDirectMessages db userId1 userId2 limit = [] := by
    intro db userId1 userId2 limit
    unfold getDirectMessages
    have h : ((joinAuthors db).filter fun r =>
        sqlAnd (sqlEqOpt r.1.channelId none)
          (sqlOr
            (sqlAnd (sqlEqInt r.1.authorId userId1) (sqlEqOpt r.1.recipientId (some userId2)))
            (sqlAnd (sqlEqInt r.1.authorId userId2) (sqlEqOpt r.1.recipientId (some userId1))))
          = .t) = [] := by
      rw [List.filter_eq_nil_iff]
      intro r _
      simp only [decide_eq_true_eq]
      intro hc
      have := (sqlAnd_eq_t.mp hc).1
      rw [sqlEqOpt_none_right] at this
      exact SqlB.noConfusion this
    rw [h]
    simp [List.insertionSort]
  exact ⟨hall, rfl, hall dmDb 1 2 50⟩

/-! ## C5 — search

`searchMessages` never references its `query` argument in any SQL
condition: the only filter ever applied is the channel scope. -/

/-- C5: search is claimed to return only messages that textually match the
query. In fact the result is completely independent of the query string,
and a query matching nothing still returns the stored messages: in
`searchDb` the only message is "hello world", and searching for "zzz"
returns it. -/
theorem searchMessages_ignores_query :
    (∀ db q q' ch, searchMessages db q ch = searchMessages db q' ch) ∧
    (searchMessages searchDb "zzz" none).map (fun r => r.1.content) =
      ["hello world"] ∧
    (searchMessages searchDb "zzz" (some 1)).map (fun r => r.1.content) =
      ["hello world"] := by
  refine ⟨fun db q q' ch => rfl, by decide, by decide⟩

/-! ## C1 — createMessage validation

`insertMessageSchema` is `createInsertSchema(messages).omit(...)` with no
`refine`: nothing relates `channelId` and `recipientId`, and `content` is
only required to be a string (the empty string qualifies). -/

/-- C1 counterexample: against `postDb` — whose users 1, 2 and channel 1
all exist, so every reference is valid and no foreign key can fail — a
`POST /api/messages` body with BOTH `channelId` and `recipientId`
populated and EMPTY content is accepted and persisted (HTTP 201), not
rejected; a body with NEITHER populated is likewise accepted. The claim
that these are rejected with a `ValidationError` is false on the code. -/
theorem postApiMessages_accepts_invalid :
    (postApiMessages postDb ⟨some "", some (some 1), none, some (some 2)⟩ 1 500).2 =
      .created (some (⟨1, "", 1, some 1, none, some 2, 500⟩, alice)) ∧
    (postApiMessages postDb ⟨some "", some (some 1), none, some (some 2)⟩ 1
        500).1.messages.length = 1 ∧
    (postApiMessages postDb ⟨some "hi", none, none, none⟩ 1 500).2 ≠ .badRequest := by
  refine ⟨by decide, by decide, by decide⟩

/-- C1 amended: the create-message endpoint rejects a request (HTTP 400)
exactly when the zod parse fails — the body's `content` field is absent
or not a string — or the insert's foreign-key check fails (a referenced
author/channel/recipient/parent row does not exist); with valid
references, every combination of `channelId`/`recipientId` — exactly one,
both, or neither — and any content string, empty included, is accepted
and persisted. -/
theorem postApiMessages_badRequest_iff (db : Db) (body : MessageBody)
    (userId : Int) (now : Int) :
    (insertMessageSchemaParse body userId = none ↔ body.content = none) ∧
    ((postApiMessages db body userId now).2 = .badRequest ↔
      ∀ data, insertMessageSchemaParse body userId = some data →
        fkRefsOk db data = false) ∧
    (∀ data, insertMessageSchemaParse body userId = some data →
      fkRefsOk db data = true →
      (postApiMessages db body userId now).1.messages.length =
        db.messages.length + 1) := by
  cases hb : body.content with
  | none =>
    refine ⟨by simp [insertMessageSchemaParse, hb], ?_, ?_⟩
    · simp [postApiMessages, insertMessageSchemaParse, hb]
    · intro data hdata
      simp [insertMessageSchemaParse, hb] at hdata
  | some c =>
    obtain ⟨data0, hparse⟩ : ∃ d, insertMessageSchemaParse body userId = some d := by
      unfold insertMessageSchemaParse
      rw [hb]
      exact ⟨_, rfl⟩
    refine ⟨by simp [hparse, hb], ?_, ?_⟩
    · cases hfk : fkRefsOk db data0 with
      | true => simp [postApiMessages, hparse, createMessage, hfk]
      | false => simp [postApiMessages, hparse, createMessage, hfk]
    · intro data hdata hfk
      rw [hparse] at hdata
      have hd : data = data0 := (Option.some_injective _ hdata).symm
      subst hd
      simp [postApiMessages, hparse, createMessage, hfk]

/-! ## C7 — getThread -/

/-- C7: `getThread(rootId)` returns exactly the stored messages whose
`parentMessageId` equals `rootId` (one row per message, given primary-key
uniqueness of users and the author foreign key), in non-decreasing
`createdAt` order, never includes the root itself (no stored message is
its own parent, which the serial id order guarantees), and is empty —
not an error — when the root has no replies or does not exist. -/
theorem getMessageThread_spec (db : Db) (rootId : Int)
    (hPK : (db.users.map UserRow.id).Nodup)
    (hRI : ∀ m ∈ db.messages, ∃ u ∈ db.users, u.id = m.authorId)
    (hself : ∀ m ∈ db.messages, m.id = rootId → m.parentMessageId ≠ some rootId) :
    ((getMessageThread db rootId).map Prod.fst).Perm
        (db.messages.filter fun m => m.parentMessageId = some rootId) ∧
    (getMessageThread db rootId).Pairwise byCreatedAtAsc ∧
    (∀ r ∈ getMessageThread db rootId, r.1.id ≠ rootId) ∧
    ((∀ m ∈ db.messages, m.parentMessageId ≠ some rootId) →
      getMessageThread db rootId = []) := by
  have heq : getMessageThread db rootId = repliesOf db rootId := rfl
  obtain ⟨hperm, hsort⟩ := repliesOf_spec db rootId hPK hRI
  refine ⟨heq ▸ hperm, heq ▸ hsort, ?_, ?_⟩
  · intro r hr hid
    rw [heq] at hr
    obtain ⟨hj, hp⟩ := mem_repliesOf hr
    exact hself r.1 (mem_joinAuthors_fst hj) hid hp
  · intro hnone
    rw [heq]
    have hnil : (db.messages.filter fun m => m.parentMessageId = some rootId) = [] := by
      rw [List.filter_eq_nil_iff]
      intro m hm
      simpa using hnone m hm
    rw [hnil] at hperm
    exact List.map_eq_nil_iff.mp hperm.eq_nil

/-! ## C6 — getChannelHistory -/

/-- The flat entries of `getChannelMessages` are the flat channel query. -/
theorem getChannelMessages_map_fst (db : Db) (ch : Int) (lim : Nat) :
    (getChannelMessages db ch lim).map (fun p => p.1) =
      channelFlatMessages db ch lim := by
  unfold getChannelMessages
  rw [List.map_map]
  exact List.map_id _

/-- C6 counterexample: in `threadDb`, message 2 is a reply
(`parentMessageId = some 1`), yet `getChannelMessages` annotates it with
its own nested reply list `[3]` — reply messages do carry nested replies,
and they are annotated exactly like roots. -/
theorem getChannelMessages_annotates_replies :
    (getChannelMessages threadDb 1 50).map
        (fun p => (p.1.1.id, p.1.1.parentMessageId, p.2.map fun q => q.1.id)) =
      [(1, none, [2]), (2, some 1, [3]), (3, some 2, [])] ∧
    (getChannelMessages threadDb 1 50).any
        (fun p => p.1.1.parentMessageId.isSome && !p.2.isEmpty) = true := by
  refine ⟨by decide, by decide⟩

/-- C6 amended: `getChannelHistory` returns the channel's messages
ascending by `createdAt` and bounded by the limit (all of them when fewer
than the limit exist), but EVERY returned message — root or reply — is
annotated with its direct one-level reply list, so replies that carry the
channel id appear both flat and nested, and a reply with replies of its
own carries them. -/
theorem getChannelMessages_spec (db : Db) (ch : Int) (lim : Nat)
    (hPK : (db.users.map UserRow.id).Nodup)
    (hRI : ∀ m ∈ db.messages, ∃ u ∈ db.users, u.id = m.authorId) :
    ((getChannelMessages db ch lim).map fun p => p.1).Pairwise byCreatedAtAsc ∧
    (getChannelMessages db ch lim).length ≤ lim ∧
    (∀ p ∈ getChannelMessages db ch lim,
      p.1.1.channelId = some ch ∧
      (p.2.map Prod.fst).Perm
        (db.messages.filter fun m => m.parentMessageId = some p.1.1.id) ∧
      p.2.Pairwise byCreatedAtAsc) ∧
    ((db.messages.filter fun m => m.channelId = some ch).length ≤ lim →
      ((getChannelMessages db ch lim).map fun p => p.1.1).Perm
        (db.messages.filter fun m => m.channelId = some ch)) := by
  refine ⟨?_, ?_, ?_, ?_⟩
  · rw [getChannelMessages_map_fst]
    exact List.Pairwise.sublist (List.take_sublist _ _)
      (List.sorted_insertionSort byCreatedAtAsc _)
  · rw [← List.length_map _ (fun p => p.1), getChannelMessages_map_fst]
    unfold channelFlatMessages
    rw [List.length_take]
    exact min_le_left _ _
  · intro p hp
    rw [getChannelMessages, List.mem_map] at hp
    obtain ⟨mw, hmw, rfl⟩ := hp
    have hmem : mw ∈ (joinAuthors db).filter fun r =>
        sqlEqOpt r.1.channelId (some ch) = .t := by
      have h1 : mw ∈ List.insertionSort byCreatedAtAsc
          ((joinAuthors db).filter fun r => sqlEqOpt r.1.channelId (some ch) = .t) :=
        List.mem_of_mem_take (by simpa [channelFlatMessages] using hmw)
      exact (List.perm_insertionSort byCreatedAtAsc _).mem_iff.mp h1
    rw [List.mem_filter] at hmem
    refine ⟨sqlEqOpt_some_eq_t.mp (by simpa using hmem.2), ?_, ?_⟩
    · exact (repliesOf_spec db mw.1.id hPK hRI).1
    · exact (repliesOf_spec db mw.1.id hPK hRI).2
  · intro hcount
    have hpred : (db.messages.filter fun m =>
        sqlEqOpt m.channelId (some ch) = .t) =
        db.messages.filter fun m => m.channelId = some ch :=
      List.filter_congr fun m _ => decide_eq_decide.mpr sqlEqOpt_some_eq_t
    have hlen : (List.insertionSort byCreatedAtAsc
        ((joinAuthors db).filter fun r =>
          sqlEqOpt r.1.channelId (some ch) = .t)).length ≤ lim := by
      rw [(List.perm_insertionSort byCreatedAtAsc _).length_eq,
        ← List.length_map _ Prod.fst,
        map_fst_filter_joinAuthors db (fun m => sqlEqOpt m.channelId (some ch) = .t)
          hPK hRI, hpred]
      exact hcount
    have htake : channelFlatMessages db ch lim =
        List.insertionSort byCreatedAtAsc
          ((joinAuthors db).filter fun r =>
            sqlEqOpt r.1.channelId (some ch) = .t) := by
      unfold channelFlatMessages
      exact List.take_of_length_le hlen
    have hmapeq : ((getChannelMessages db ch lim).map fun p => p.1.1) =
        (channelFlatMessages db ch lim).map Prod.fst := by
      unfold getChannelMessages
      rw [List.map_map]
      rfl
    rw [hmapeq, htake]
    refine ((List.perm_insertionSort byCreatedAtAsc _).map Prod.fst).trans ?_
    rw [map_fst_filter_joinAuthors db (fun m => sqlEqOpt m.channelId (some ch) = .t)
      hPK hRI, hpred]

/-! ## Lemmas about the JS Map / Set model -/

theorem mapGet_mapSet_self {α : Type} (l : List (ConnId × α)) (k : ConnId)
    (v : α) : mapGet (mapSet l k v) k = some v := by
  induction l with
  | nil => simp [mapSet, mapGet]
  | cons p rest ih =>
    obtain ⟨k', v'⟩ := p
    by_cases h : k' = k
    · simp [mapSet, h, mapGet]
    · simp [mapSet, h, mapGet, ih]

theorem mapGet_mapSet_ne {α : Type} (l : List (ConnId × α)) (k c : ConnId)
    (v : α) (h : c ≠ k) : mapGet (mapSet l k v) c = mapGet l c := by
  have hkc : k ≠ c := fun e => h e.symm
  induction l with
  | nil => simp [mapSet, mapGet, hkc]
  | cons p rest ih =>
    obtain ⟨k', v'⟩ := p
    by_cases hk : k' = k
    · subst hk
      simp [mapSet, mapGet, hkc]
    · simp only [mapSet, hk, if_false]
      by_cases hc : k' = c
      · simp [mapGet, hc]
      · simp [mapGet, hc, ih]

theorem mem_mapSet {α : Type} {l : List (ConnId × α)} {k : ConnId} {v : α}
    {p : ConnId × α} (h : p ∈ mapSet l k v) : p = (k, v) ∨ p ∈ l := by
  induction l with
  | nil => simpa [mapSet] using h
  | cons q rest ih =>
    obtain ⟨k', v'⟩ := q
    by_cases hk : k' = k
    · rw [mapSet] at h
      simp only [hk, if_true] at h
      rcases List.mem_cons.mp h with rfl | h'
      · exact Or.inl rfl
      · exact Or.inr (List.mem_cons_of_mem _ h')
    · rw [mapSet] at h
      simp only [hk, if_false] at h
      rcases List.mem_cons.mp h with rfl | h'
      · exact Or.inr (List.mem_cons_self _ _)
      · rcases ih h' with h'' | h''
        · exact Or.inl h''
        · exact Or.inr (List.mem_cons_of_mem _ h'')

theorem mem_mapSet_self {α : Type} (l : List (ConnId × α)) (k : ConnId)
    (v : α) : (k, v) ∈ mapSet l k v := by
  induction l with
  | nil => simp [mapSet]
  | cons q rest ih =>
    obtain ⟨k', v'⟩ := q
    by_cases hk : k' = k <;> simp [mapSet, hk, ih]

theorem mem_map_fst_mapSet {α : Type} {l : List (ConnId × α)} {k c : ConnId}
    {v : α} : c ∈ (mapSet l k v).map Prod.fst ↔ c = k ∨ c ∈ l.map Prod.fst := by
  induction l with
  | nil => simp [mapSet]
  | cons q rest ih =>
    obtain ⟨k', v'⟩ := q
    by_cases hk : k' = k
    · subst hk
      simp [mapSet]
    · rw [mapSet]
      simp only [hk, if_false, List.map_cons, List.mem_cons, ih]
      tauto

theorem nodup_map_fst_mapSet {α : Type} {l : List (ConnId × α)} {k : ConnId}
    {v : α} (h : (l.map Prod.fst).Nodup) :
    ((mapSet l k v).map Prod.fst).Nodup := by
  induction l with
  | nil => simp [mapSet]
  | cons q rest ih =>
    obtain ⟨k', v'⟩ := q
    rw [List.map_cons, List.nodup_cons] at h
    by_cases hk : k' = k
    · subst hk
      rw [mapSet]
      simp only [if_true, List.map_cons, List.nodup_cons]
      exact ⟨h.1, h.2⟩
    · rw [mapSet]
      simp only [hk, if_false, List.map_cons, List.nodup_cons]
      refine ⟨fun hc => ?_, ih h.2⟩
      rcases mem_map_fst_mapSet.mp hc with rfl | hc'
      · exact hk rfl
      · exact h.1 hc'

theorem mapGet_eq_of_mem_nodup {α : Type} {l : List (ConnId × α)}
    (hnd : (l.map Prod.fst).Nodup) {p : ConnId × α} (hp : p ∈ l) :
    mapGet l p.1 = some p.2 := by
  induction l with
  | nil => exact absurd hp (List.not_mem_nil p)
  | cons q rest ih =>
    obtain ⟨k', v'⟩ := q
    rw [List.map_cons, List.nodup_cons] at hnd
    rcases List.mem_cons.mp hp with rfl | hp'
    · simp [mapGet]
    · have hmem : p.1 ∈ rest.map Prod.fst := List.mem_map_of_mem Prod.fst hp'
      have hne : k' ≠ p.1 := fun he => hnd.1 (he ▸ hmem)
      simp [mapGet, hne, ih hnd.2 hp']

theorem mapGet_isSome_iff {α : Type} {l : List (ConnId × α)} {k : ConnId} :
    (mapGet l k).isSome = true ↔ k ∈ l.map Prod.fst := by
  induction l with
  | nil => simp [mapGet]
  | cons q rest ih =>
    obtain ⟨k', v'⟩ := q
    by_cases hk : k' = k
    · subst hk
      simp [mapGet]
    · have hkk : k ≠ k' := fun e => hk e.symm
      simp [mapGet, hk, ih, hkk]

theorem mem_setAdd {x y : Int} {l : List Int} :
    y ∈ setAdd l x ↔ y ∈ l ∨ y = x := by
  unfold setAdd
  by_cases h : x ∈ l
  · simp only [h, if_true]
    exact ⟨Or.inl, fun hc => hc.elim id fun he => he ▸ h⟩
  · simp [h]

theorem not_mem_setRemove (l : List Int) (x : Int) : x ∉ setRemove l x := by
  unfold setRemove
  intro h
  exact (by simpa using (List.mem_filter.mp h).2 : x ≠ x) rfl

/-! ## The relay invariant: registered sockets are open, keys are unique -/

structure RelayInv (st : RelayState) : Prop where
  keysNodup : (st.clients.map Prod.fst).Nodup
  keysOpen : ∀ p ∈ st.clients, p.1 ∈ st.conns

theorem connOpen_iff {st : RelayState} {c : ConnId} :
    connOpen st c = true ↔ c ∈ st.conns := List.elem_iff

theorem relayInv_init : RelayInv initRelayState :=
  ⟨List.nodup_nil, by intro p hp; exact absurd hp (List.not_mem_nil p)⟩

theorem relayInv_step {st : RelayState} (h : RelayInv st) (e : RelayEvent) :
    RelayInv (relayStep st e).1 := by
  obtain ⟨hnd, hopen⟩ := h
  cases e with
  | connect c =>
    refine ⟨hnd, ?_⟩
    intro p hp
    simp only [relayStep] at hp ⊢
    split
    · exact hopen p hp
    · exact List.mem_append_left _ (hopen p hp)
  | close c =>
    constructor
    · exact List.Nodup.sublist (List.Sublist.map Prod.fst (List.filter_sublist _)) hnd
    · intro p hp
      simp only [relayStep, mapDelete, List.mem_filter] at hp
      have h1 := hopen p hp.1
      have h2 : p.1 ≠ c := by simpa using hp.2
      simp only [relayStep, List.mem_filter]
      exact ⟨h1, by simpa using h2⟩
  | message c msg =>
    by_cases hc : connOpen st c = true
    · cases msg with
      | auth uid =>
        refine ⟨by simpa [relayStep, hc, handleWsMessage] using
            nodup_map_fst_mapSet hnd, ?_⟩
        intro p hp
        simp only [relayStep, hc, if_true, handleWsMessage] at hp ⊢
        rcases mem_mapSet hp with rfl | hp'
        · exact connOpen_iff.mp hc
        · exact hopen p hp'
      | joinChannel ch =>
        cases hget : mapGet st.clients c with
        | none =>
          exact ⟨by simpa [relayStep, hc, handleWsMessage, hget] using hnd,
            by simpa [relayStep, hc, handleWsMessage, hget] using hopen⟩
        | some info =>
          refine ⟨by simpa [relayStep, hc, handleWsMessage, hget] using
              nodup_map_fst_mapSet hnd, ?_⟩
          intro p hp
          simp only [relayStep, hc, if_true, handleWsMessage, hget] at hp ⊢
          rcases mem_mapSet hp with rfl | hp'
          · exact connOpen_iff.mp hc
          · exact hopen p hp'
      | leaveChannel ch =>
        cases hget : mapGet st.clients c with
        | none =>
          exact ⟨by simpa [relayStep, hc, handleWsMessage, hget] using hnd,
            by simpa [relayStep, hc, handleWsMessage, hget] using hopen⟩
        | some info =>
          refine ⟨by simpa [relayStep, hc, handleWsMessage, hget] using
              nodup_map_fst_mapSet hnd, ?_⟩
          intro p hp
          simp only [relayStep, hc, if_true, handleWsMessage, hget] at hp ⊢
          rcases mem_mapSet hp with rfl | hp'
          · exact connOpen_iff.mp hc
          · exact hopen p hp'
      | newMessage p =>
        by_cases h1 : jsTruthy p.channelId = true
        · exact ⟨by simpa [relayStep, hc, handleWsMessage, h1] using hnd,
            by simpa [relayStep, hc, handleWsMessage, h1] using hopen⟩
        · by_cases h2 : jsTruthy p.recipientId = true
          · exact ⟨by simpa [relayStep, hc, handleWsMessage, h1, h2] using hnd,
              by simpa [relayStep, hc, handleWsMessage, h1, h2] using hopen⟩
          · exact ⟨by simpa [relayStep, hc, handleWsMessage, h1, h2] using hnd,
              by simpa [relayStep, hc, handleWsMessage, h1, h2] using hopen⟩
      | typing ch uid ty =>
        exact ⟨by simpa [relayStep, hc, handleWsMessage] using hnd,
          by simpa [relayStep, hc, handleWsMessage] using hopen⟩
    · exact ⟨by simpa [relayStep, hc] using hnd,
        by simpa [relayStep, hc] using hopen⟩

theorem relayInv_run (st : RelayState) (h : RelayInv st)
    (es : List RelayEvent) : RelayInv (relayRun st es) := by
  induction es generalizing st with
  | nil => exact h
  | cons e es ih => exact ih _ (relayInv_step h e)

theorem relayInv_reachable {st : RelayState} (h : ReachableRelay st) :
    RelayInv st := by
  obtain ⟨es, rfl⟩ := h
  exact relayInv_run _ relayInv_init es

/-- Pure bookkeeping: the claim-level recipient set "subscribers of `ch`
minus the sender" can be read either as one filter over the registry or as
`connectionsFor(ch)` minus the sender. -/
theorem connectionsForChannel_filter_ne (st : RelayState) (ch : Int)
    (sender : ConnId) :
    ((st.clients.filter fun c => c.1 ≠ sender ∧ ch ∈ c.2.channels).map
      Prod.fst) =
      (connectionsForChannel st ch).filter fun w => w ≠ sender := by
  unfold connectionsForChannel
  rw [List.filter_map, List.filter_filter]
  congr 1
  apply List.filter_congr
  intro c _
  rw [Bool.eq_iff_iff]
  simp only [Function.comp, Bool.and_eq_true, decide_eq_true_eq, List.elem_iff]

/-! ## C2 — channel broadcast fan-out -/

/-- C2: for a reachable relay state and a `new_message` frame carrying a
(nonzero) `channelId`, the outbound frames go exactly to the registered
connections whose subscription set contains that channel, minus the
sending connection — equivalently `connectionsFor(channelId)` minus the
sender — each receiving the message payload. A connection subscribed
only to other channels receives nothing. -/
theorem newMessage_channel_broadcast (st : RelayState)
    (hreach : ReachableRelay st) (sender : ConnId)
    (hopen : connOpen st sender = true) (p : NewMessagePayload) (ch : Int)
    (hch : p.channelId = some ch) (h0 : ch ≠ 0) :
    (relayStep st (.message sender (.newMessage p))).2 =
      ((st.clients.filter fun c => c.1 ≠ sender ∧ ch ∈ c.2.channels).map
        fun c => (c.1, OutFrame.newMessage p.data)) ∧
    (relayStep st (.message sender (.newMessage p))).2.map Prod.fst =
      (connectionsForChannel st ch).filter fun w => w ≠ sender := by
  have hinv := relayInv_reachable hreach
  have htr : jsTruthy p.channelId = true := by
    rw [hch]
    simpa [jsTruthy] using bne_iff_ne.mpr h0
  have htr' : jsTruthy (some ch) = true := hch ▸ htr
  have hmain : (relayStep st (.message sender (.newMessage p))).2 =
      ((st.clients.filter fun c => c.1 ≠ sender ∧ ch ∈ c.2.channels).map
        fun c => (c.1, OutFrame.newMessage p.data)) := by
    simp only [relayStep, hopen, if_true, handleWsMessage, hch, htr',
      Option.getD_some]
    congr 1
    apply List.filter_congr
    intro c hc
    have hco : connOpen st c.1 = true := connOpen_iff.mpr (hinv.keysOpen c hc)
    rw [Bool.eq_iff_iff]
    simp only [Bool.and_eq_true, bne_iff_ne, decide_eq_true_eq, hco,
      and_true, List.elem_iff]
  refine ⟨hmain, ?_⟩
  rw [hmain, ← connectionsForChannel_filter_ne, List.map_map]
  rfl

/-! ## C3 — direct-message fan-out -/

/-- C3: for a reachable relay state and a `new_message` frame with no
`channelId` and a (nonzero) `recipientId`, the outbound frames go exactly
to the registered connections whose claimed identity is the recipient or
the payload's author, minus the sending connection — every other device
of either party. -/
theorem newMessage_dm_broadcast (st : RelayState)
    (hreach : ReachableRelay st) (sender : ConnId)
    (hopen : connOpen st sender = true) (p : NewMessagePayload) (r : Int)
    (hch : p.channelId = none) (hr : p.recipientId = some r) (h0 : r ≠ 0) :
    (relayStep st (.message sender (.newMessage p))).2 =
      ((st.clients.filter fun c =>
          (c.2.userId = r ∨ c.2.userId = p.data.authorId) ∧ c.1 ≠ sender).map
        fun c => (c.1, OutFrame.newMessage p.data)) := by
  have hinv := relayInv_reachable hreach
  have hfalse : jsTruthy (none : Option Int) = false := rfl
  have htr' : jsTruthy (some r) = true := by
    simpa [jsTruthy] using bne_iff_ne.mpr h0
  simp only [relayStep, hopen, if_true, handleWsMessage, hch, hr, hfalse,
    htr', Option.getD_some, Bool.false_eq_true, if_false]
  congr 1
  apply List.filter_congr
  intro c hc
  have hco : connOpen st c.1 = true := connOpen_iff.mpr (hinv.keysOpen c hc)
  rw [Bool.eq_iff_iff]
  simp only [Bool.and_eq_true, Bool.or_eq_true, bne_iff_ne, beq_iff_eq,
    decide_eq_true_eq, hco, Option.getD_some, true_and]
  tauto

/-! ## C8 — subscribe / unsubscribe / unregister lifecycle -/

/-- C8: from any reachable relay state, for a registered open connection
`c`: after a `join_channel X` frame, `connectionsFor(X)` includes `c`;
after a subsequent `leave_channel X` frame it excludes `c`; and after the
transport closes (`unregister`), `connectionsFor` excludes `c` for every
channel. -/
theorem subscription_lifecycle (st : RelayState)
    (hreach : ReachableRelay st) (c : ConnId) (x : Int)
    (hopen : connOpen st c = true) (info : ClientInfo)
    (hreg : mapGet st.clients c = some info) :
    c ∈ connectionsForChannel
        (relayStep st (.message c (.joinChannel x))).1 x ∧
    c ∉ connectionsForChannel
        (relayStep (relayStep st (.message c (.joinChannel x))).1
          (.message c (.leaveChannel x))).1 x ∧
    (∀ ch : Int, c ∉ connectionsForChannel
        (relayStep (relayStep (relayStep st
            (.message c (.joinChannel x))).1
          (.message c (.leaveChannel x))).1 (.close c)).1 ch) := by
  have hinv := relayInv_reachable hreach
  have hinv1 := relayInv_step hinv (.message c (.joinChannel x))
  have hinv2 := relayInv_step hinv1 (.message c (.leaveChannel x))
  set info1 : ClientInfo := { info with channels := setAdd info.channels x }
  have hst1 : (relayStep st (.message c (.joinChannel x))).1 =
      { st with clients := mapSet st.clients c info1 } := by
    simp [relayStep, hopen, handleWsMessage, hreg]
  have hopen1 : connOpen (relayStep st (.message c (.joinChannel x))).1 c
      = true := by rw [hst1]; exact hopen
  have hget1 : mapGet (relayStep st (.message c (.joinChannel x))).1.clients
      c = some info1 := by rw [hst1]; exact mapGet_mapSet_self _ _ _
  set info2 : ClientInfo := { info1 with channels := setRemove info1.channels x }
  have hst2 : (relayStep (relayStep st (.message c (.joinChannel x))).1
      (.message c (.leaveChannel x))).1 =
      { st with clients :=
          mapSet (mapSet st.clients c info1) c info2 } := by
    rw [relayStep]
    simp only [hopen1, if_true, handleWsMessage, hget1]
    rw [hst1]
  refine ⟨?_, ?_, ?_⟩
  · rw [hst1]
    unfold connectionsForChannel
    refine List.mem_map.mpr ⟨(c, info1), List.mem_filter.mpr
      ⟨mem_mapSet_self _ _ _, ?_⟩, rfl⟩
    simp only [decide_eq_true_eq]
    exact List.elem_iff.mpr (mem_setAdd.mpr (Or.inr rfl))
  · intro hmem
    unfold connectionsForChannel at hmem
    obtain ⟨e, he, hefst⟩ := List.mem_map.mp hmem
    have he' := List.mem_filter.mp he
    have hgete' := mapGet_eq_of_mem_nodup hinv2.keysNodup he'.1
    rw [hefst] at hgete'
    have hgete : mapGet (relayStep (relayStep st
        (.message c (.joinChannel x))).1 (.message c (.leaveChannel x))).1.clients
        c = some e.2 := hgete'
    have hget2 : mapGet (relayStep (relayStep st
        (.message c (.joinChannel x))).1 (.message c (.leaveChannel x))).1.clients
        c = some info2 := by
      rw [hst2]
      exact mapGet_mapSet_self _ _ _
    have he2 : e.2 = info2 := by
      have := hgete.symm.trans hget2
      exact Option.some_injective _ this
    have hx : x ∈ e.2.channels := List.elem_iff.mp (by simpa using he'.2)
    rw [he2] at hx
    exact not_mem_setRemove _ x hx
  · intro ch hmem
    unfold connectionsForChannel at hmem
    obtain ⟨e, he, hefst⟩ := List.mem_map.mp hmem
    have he' := List.mem_filter.mp he
    have : e ∈ mapDelete (relayStep (relayStep st
        (.message c (.joinChannel x))).1
        (.message c (.leaveChannel x))).1.clients c := by
      simpa [relayStep] using he'.1
    have hne : e.1 ≠ c := by
      have := (List.mem_filter.mp this).2
      simpa using this
    exact hne hefst

/-! ## C9 — authenticate -/

/-- C9 counterexample: socket 1 authenticates as user 1 and joins channel
7 (subscription set `[7]`); re-authenticating as user 2 resets the
subscription set to `[]` — the claim that re-authentication leaves the
subscription set unchanged is false. -/
theorem reauth_clears_subscriptions :
    (relayRun initRelayState (exReauthEvents.take 3)).clients =
      [(1, ⟨1, [7]⟩)] ∧
    (relayRun initRelayState exReauthEvents).clients = [(1, ⟨2, []⟩)] := by
  refine ⟨by decide, by decide⟩

/-- C9 amended: an `auth` frame overwrites the connection's registry entry
with the claimed identity AND an empty subscription set (it does not
preserve previously joined channels); it touches no other connection's
entry, leaves the open-socket set unchanged, and emits no outbound
frames. -/
theorem authenticate_overwrites_and_resets (st : RelayState)
    (sender : ConnId) (uid : Int) (hopen : connOpen st sender = true) :
    mapGet (relayStep st (.message sender (.auth uid))).1.clients sender =
      some ⟨uid, []⟩ ∧
    (∀ c, c ≠ sender →
      mapGet (relayStep st (.message sender (.auth uid))).1.clients c =
        mapGet st.clients c) ∧
    (relayStep st (.message sender (.auth uid))).1.conns = st.conns ∧
    (relayStep st (.message sender (.auth uid))).2 = [] := by
  simp only [relayStep, hopen, if_true, handleWsMessage]
  refine ⟨mapGet_mapSet_self _ _ _,
    fun c hc => mapGet_mapSet_ne _ _ _ _ hc, ?_, ?_⟩ <;> trivial

/-! ## C10 — only authenticated connections receive frames -/

/-- C10: for every relay state and inbound event, (i) every recipient of
an outbound frame is a key of the `clients` registry; (ii) `join_channel`
and `leave_channel` frames from a connection that is not in the registry
(never authenticated) are silently dropped, changing nothing and sending
nothing; (iii) a connection enters the registry only through its own
`auth` frame. -/
theorem handleWsMessage_recipients (st : RelayState) (sender : ConnId)
    (msg : WsMessage) :
    ∀ w ∈ (handleWsMessage st sender msg).2.map Prod.fst,
      w ∈ st.clients.map Prod.fst := by
  intro w hw
  cases msg with
  | auth uid => simp [handleWsMessage] at hw
  | joinChannel ch =>
    cases hg : mapGet st.clients sender with
    | none => simp [handleWsMessage, hg] at hw
    | some info => simp [handleWsMessage, hg] at hw
  | leaveChannel ch =>
    cases hg : mapGet st.clients sender with
    | none => simp [handleWsMessage, hg] at hw
    | some info => simp [handleWsMessage, hg] at hw
  | newMessage p =>
    rw [handleWsMessage] at hw
    split at hw
    · rw [List.map_map, List.mem_map] at hw
      obtain ⟨e, he, rfl⟩ := hw
      exact List.mem_map_of_mem Prod.fst (List.mem_of_mem_filter he)
    · split at hw
      · rw [List.map_map, List.mem_map] at hw
        obtain ⟨e, he, rfl⟩ := hw
        exact List.mem_map_of_mem Prod.fst (List.mem_of_mem_filter he)
      · simp at hw
  | typing ch uid ty =>
    rw [handleWsMessage] at hw
    rw [List.map_map, List.mem_map] at hw
    obtain ⟨e, he, rfl⟩ := hw
    exact List.mem_map_of_mem Prod.fst (List.mem_of_mem_filter he)

theorem relay_only_authenticated_receive (st : RelayState) (e : RelayEvent) :
    (∀ w ∈ (relayStep st e).2.map Prod.fst, w ∈ st.clients.map Prod.fst) ∧
    (∀ c ch, c ∉ st.clients.map Prod.fst →
      relayStep st (.message c (.joinChannel ch)) = (st, []) ∧
      relayStep st (.message c (.leaveChannel ch)) = (st, [])) ∧
    (∀ c, c ∈ (relayStep st e).1.clients.map Prod.fst →
      c ∈ st.clients.map Prod.fst ∨ ∃ uid, e = .message c (.auth uid)) := by
  have hnoreg : ∀ c, c ∉ st.clients.map Prod.fst →
      mapGet st.clients c = none := by
    intro c hc
    cases hg : mapGet st.clients c with
    | none => rfl
    | some v =>
      exact absurd (mapGet_isSome_iff.mp (by simp [hg])) hc
  refine ⟨?_, ?_, ?_⟩
  · cases e with
    | connect c => intro w hw; simp [relayStep] at hw
    | close c => intro w hw; simp [relayStep] at hw
    | message c msg =>
      by_cases hc : connOpen st c = true
      · intro w hw
        rw [show relayStep st (.message c msg) = handleWsMessage st c msg
          from by simp [relayStep, hc]] at hw
        exact handleWsMessage_recipients st c msg w hw
      · intro w hw; simp [relayStep, hc] at hw
  · intro c ch hc
    have hg := hnoreg c hc
    constructor
    · by_cases hcon : connOpen st c = true <;>
        simp [relayStep, hcon, handleWsMessage, hg]
    · by_cases hcon : connOpen st c = true <;>
        simp [relayStep, hcon, handleWsMessage, hg]
  · cases e with
    | connect c' => intro c hc; exact Or.inl (by simpa [relayStep] using hc)
    | close c' =>
      intro c hc
      simp only [relayStep, mapDelete] at hc
      rw [List.mem_map] at hc
      obtain ⟨e', he', rfl⟩ := hc
      exact Or.inl (List.mem_map_of_mem Prod.fst (List.mem_of_mem_filter he'))
    | message c' msg =>
      by_cases hcon : connOpen st c' = true
      · cases msg with
        | auth uid =>
          intro c hc
          simp only [relayStep, hcon, if_true, handleWsMessage] at hc
          rcases mem_map_fst_mapSet.mp hc with rfl | hc'
          · exact Or.inr ⟨uid, rfl⟩
          · exact Or.inl hc'
        | joinChannel ch =>
          intro c hc
          cases hg : mapGet st.clients c' with
          | none =>
            exact Or.inl (by simpa [relayStep, hcon, handleWsMessage, hg] using hc)
          | some info =>
            simp only [relayStep, hcon, if_true, handleWsMessage, hg] at hc
            rcases mem_map_fst_mapSet.mp hc with rfl | hc'
            · exact Or.inl (mapGet_isSome_iff.mp (by simp [hg]))
            · exact Or.inl hc'
        | leaveChannel ch =>
          intro c hc
          cases hg : mapGet st.clients c' with
          | none =>
            exact Or.inl (by simpa [relayStep, hcon, handleWsMessage, hg] using hc)
          | some info =>
            simp only [relayStep, hcon, if_true, handleWsMessage, hg] at hc
            rcases mem_map_fst_mapSet.mp hc with rfl | hc'
            · exact Or.inl (mapGet_isSome_iff.mp (by simp [hg]))
            · exact Or.inl hc'
        | newMessage p =>
          intro c hc
          by_cases h1 : jsTruthy p.channelId = true
          · exact Or.inl (by simpa [relayStep, hcon, handleWsMessage, h1] using hc)
          · by_cases h2 : jsTruthy p.recipientId = true
            · exact Or.inl
                (by simpa [relayStep, hcon, handleWsMessage, h1, h2] using hc)
            · exact Or.inl
                (by simpa [relayStep, hcon, handleWsMessage, h1, h2] using hc)
        | typing ch uid ty =>
          intro c hc
          exact Or.inl (by simpa [relayStep, hcon, handleWsMessage] using hc)
      · intro c hc
        exact Or.inl (by simpa [relayStep, hcon] using hc)

/-! ## Witnesses: each hypothesised theorem applied at a concrete input -/

/-- C1 witness: against `postDb` (channel 1 and users 1, 2 exist), a body
with exactly `channelId = 1` populated and content "ok" parses, passes
the foreign-key check, is not rejected, and adds one row. -/
theorem postApiMessages_badRequest_iff_witness :
    (insertMessageSchemaParse ⟨some "ok", some (some 1), none, none⟩ 1 = none ↔
      (⟨some "ok", some (some 1), none, none⟩ : MessageBody).content = none) ∧
    ((postApiMessages postDb ⟨some "ok", some (some 1), none, none⟩ 1 600).2 =
        .badRequest ↔
      ∀ data, insertMessageSchemaParse ⟨some "ok", some (some 1), none, none⟩ 1 =
          some data → fkRefsOk postDb data = false) ∧
    (∀ data, insertMessageSchemaParse ⟨some "ok", some (some 1), none, none⟩ 1 =
        some data → fkRefsOk postDb data = true →
      (postApiMessages postDb ⟨some "ok", some (some 1), none, none⟩ 1
          600).1.messages.length = postDb.messages.length + 1) :=
  postApiMessages_badRequest_iff postDb ⟨some "ok", some (some 1), none, none⟩ 1 600

/-- C2 witness: sockets 1, 2 on channel 7 and socket 3 on channel 8; a
`new_message` with `channelId = 7` from socket 1 reaches exactly socket 2. -/
theorem newMessage_channel_broadcast_witness :
    (relayStep exChannelState
        (.message 1 (.newMessage ⟨some 7, none, ⟨1⟩⟩))).2.map Prod.fst =
      [2] := by
  have h := newMessage_channel_broadcast exChannelState ⟨exChannelEvents, rfl⟩
    1 (by decide) ⟨some 7, none, ⟨1⟩⟩ 7 rfl (by decide)
  rw [h.2]
  decide

/-- C3 witness: user 1 on sockets 1 and 4, user 2 on socket 2; a DM from
socket 1 (author 1, recipient 2) reaches sockets 2 and 4, not socket 1. -/
theorem newMessage_dm_broadcast_witness :
    (relayStep exDmState
        (.message 1 (.newMessage ⟨none, some 2, ⟨1⟩⟩))).2.map Prod.fst =
      [2, 4] := by
  have h := newMessage_dm_broadcast exDmState ⟨exDmEvents, rfl⟩ 1 (by decide)
    ⟨none, some 2, ⟨1⟩⟩ 2 rfl rfl (by decide)
  rw [h]
  decide

/-- C6 witness: the amended channel-history properties at `threadDb`. -/
theorem getChannelMessages_spec_witness :
    ((getChannelMessages threadDb 1 50).map fun p => p.1).Pairwise
      byCreatedAtAsc ∧
    (getChannelMessages threadDb 1 50).length ≤ 50 ∧
    (∀ p ∈ getChannelMessages threadDb 1 50,
      p.1.1.channelId = some 1 ∧
      (p.2.map Prod.fst).Perm
        (threadDb.messages.filter fun m => m.parentMessageId = some p.1.1.id) ∧
      p.2.Pairwise byCreatedAtAsc) ∧
    ((threadDb.messages.filter fun m => m.channelId = some 1).length ≤ 50 →
      ((getChannelMessages threadDb 1 50).map fun p => p.1.1).Perm
        (threadDb.messages.filter fun m => m.channelId = some 1)) :=
  getChannelMessages_spec threadDb 1 50 (by decide) (by decide)

/-- C7 witness: the thread of root 1 in `threadDb` is exactly its direct
replies, sorted, without the root. -/
theorem getMessageThread_spec_witness :
    ((getMessageThread threadDb 1).map Prod.fst).Perm
        (threadDb.messages.filter fun m => m.parentMessageId = some 1) ∧
    (getMessageThread threadDb 1).Pairwise byCreatedAtAsc ∧
    (∀ r ∈ getMessageThread threadDb 1, r.1.id ≠ 1) ∧
    ((∀ m ∈ threadDb.messages, m.parentMessageId ≠ some 1) →
      getMessageThread threadDb 1 = []) :=
  getMessageThread_spec threadDb 1 (by decide) (by decide) (by decide)

/-- C8 witness: socket 3 of `exChannelState` joins channel 9, leaves it,
then closes. -/
theorem subscription_lifecycle_witness :
    3 ∈ connectionsForChannel
        (relayStep exChannelState (.message 3 (.joinChannel 9))).1 9 ∧
    3 ∉ connectionsForChannel
        (relayStep (relayStep exChannelState (.message 3 (.joinChannel 9))).1
          (.message 3 (.leaveChannel 9))).1 9 ∧
    (∀ ch : Int, 3 ∉ connectionsForChannel
        (relayStep (relayStep (relayStep exChannelState
            (.message 3 (.joinChannel 9))).1
          (.message 3 (.leaveChannel 9))).1 (.close 3)).1 ch) :=
  subscription_lifecycle exChannelState ⟨exChannelEvents, rfl⟩ 3 9 (by decide)
    ⟨3, [8]⟩ (by decide)

/-- C9 witness of the amended claim: socket 1 of `exChannelState`
re-authenticates as user 5; its entry becomes `(5, [])`, other entries,
the open-socket set and the (empty) outbound list unchanged. -/
theorem authenticate_overwrites_and_resets_witness :
    mapGet (relayStep exChannelState (.message 1 (.auth 5))).1.clients 1 =
      some ⟨5, []⟩ ∧
    (∀ c, c ≠ 1 →
      mapGet (relayStep exChannelState (.message 1 (.auth 5))).1.clients c =
        mapGet exChannelState.clients c) ∧
    (relayStep exChannelState (.message 1 (.auth 5))).1.conns =
      exChannelState.conns ∧
    (relayStep exChannelState (.message 1 (.auth 5))).2 = [] :=
  authenticate_overwrites_and_resets exChannelState 1 5 (by decide)

/-- C10 witness: socket 9 never authenticated, so its `join_channel` frame
is silently dropped. -/
theorem relay_only_authenticated_receive_witness :
    relayStep exChannelState (.message 9 (.joinChannel 3)) =
      (exChannelState, []) :=
  (relay_only_authenticated_receive exChannelState
    (.message 9 (.joinChannel 3))).2.1 9 3 (by decide) |>.1

end SlackAI
